import Mathlib

/-!
Verification development for the wartycoon turn-based strategy game.
The Rust source is embedded shallowly: i32 quantities become ℤ, usize
coordinates become ℕ, f64 fighting power becomes ℚ, fallible operations
return Except, and `&mut self` methods return the new state explicitly so
that partial mutation on failure is representable (and refutable).
-/

namespace Wartycoon

-- ===== limits.rs =====

/-- BASE_CAPACITY from limits.rs. -/
def BASE_CAPACITY : ℤ := 200

/-- BASE_COST (wood, gold) from limits.rs. -/
def BASE_COST : ℤ × ℤ := (220, 100)

/-- ARCHER_COST (wood, gold) from limits.rs. -/
def ARCHER_COST : ℤ × ℤ := (0, 10)

/-- WARRIOR_COST (wood, gold) from limits.rs. -/
def WARRIOR_COST : ℤ × ℤ := (10, 5)

/-- HARVEST_GAIN (wood, gold) from limits.rs. -/
def HARVEST_GAIN : ℤ × ℤ := (200, 120)

/-- ARCHER_POWER = 1.9 from limits.rs, modelled exactly as a rational. -/
def ARCHER_POWER : ℚ := 19 / 10

/-- WARRIOR_POWER = 1.2 from limits.rs, modelled exactly as a rational. -/
def WARRIOR_POWER : ℚ := 12 / 10

/-- DEFAULT_PLAN_WIDTH from limits.rs. -/
def DEFAULT_PLAN_WIDTH : ℕ := 1

/-- DEFAULT_PLAN_HEIGHT from limits.rs. -/
def DEFAULT_PLAN_HEIGHT : ℕ := 1

/-- The sentinel std::f64::MIN used as the fold seed in evaluate_field,
modelled by its exact value -(2^1024 - 2^971). -/
def F64_MIN : ℚ := -(2 ^ 1024 - 2 ^ 971)

-- ===== resources.rs =====

/-- ResourceType from resources.rs. -/
inductive ResourceType
| Wood
| Gold
deriving DecidableEq

/-- Display text of a resource type (resources.rs Display impl). -/
def ResourceType.display : ResourceType → String
| .Wood => "WOOD"
| .Gold => "GOLD"

/-- Resource struct from resources.rs: a typed quantity (i32 → ℤ). -/
structure Resource where
  resource_type : ResourceType
  quantity : ℤ
deriving DecidableEq

/-- Resource::new. -/
def Resource.new (resource_type : ResourceType) : Resource :=
  ⟨resource_type, 0⟩

/-- Resource::can_pay: `self.quantity - quantity >= 0`. -/
def Resource.can_pay (r : Resource) (quantity : ℤ) : Bool :=
  decide (0 ≤ r.quantity - quantity)

/-- Resource::cannot_pay error text (box formatting dropped). -/
def Resource.cannot_pay (r : Resource) : String :=
  "Not enough " ++ r.resource_type.display ++ " to perform this operation"

/-- Error text of Resource::add for a zero amount. -/
def cannot_add_msg (r : Resource) : String :=
  "Cannot add 0 units of " ++ r.resource_type.display

/-- Resource::add: rejects exactly the amount 0, otherwise adds. -/
def Resource.add (r : Resource) (quantity : ℤ) : Except String Resource :=
  if quantity = 0 then .error (cannot_add_msg r)
  else .ok { r with quantity := r.quantity + quantity }

/-- Resource::subtract: checked by can_pay, otherwise errors untouched. -/
def Resource.subtract (r : Resource) (quantity : ℤ) : Except String Resource :=
  if r.can_pay quantity then .ok { r with quantity := r.quantity - quantity }
  else .error r.cannot_pay

-- ===== troops.rs =====

/-- UnitType from troops.rs. -/
inductive UnitType
| Warrior
| Archer
deriving DecidableEq

/-- Display text of a unit type (troops.rs Display impl). -/
def UnitType.display : UnitType → String
| .Archer => "ARCHER"
| .Warrior => "WARRIOR"

/-- UnitType::power from troops.rs (HasPower impl). -/
def UnitType.power : UnitType → ℚ
| .Archer => ARCHER_POWER
| .Warrior => WARRIOR_POWER

/-- UnitType::value from troops.rs (HasValue impl). -/
def UnitType.value : UnitType → ℤ × ℤ
| .Archer => ARCHER_COST
| .Warrior => WARRIOR_COST

/-- Unit struct from troops.rs: a typed quantity of troops. -/
structure Unit where
  unit_type : UnitType
  quantity : ℤ
deriving DecidableEq

/-- Unit::new: zero troops of the given type. -/
def Unit.new (unit_type : UnitType) : Unit :=
  ⟨unit_type, 0⟩

/-- Unit::unit_to_send. -/
def Unit.unit_to_send (unit_type : UnitType) (quantity : ℤ) : Unit :=
  ⟨unit_type, quantity⟩

/-- Unit::train: `self.quantity += quantity` (no validation here). -/
def Unit.train (u : Unit) (quantity : ℤ) : Unit :=
  { u with quantity := u.quantity + quantity }

/-- Unit::send_occupy: `self.quantity -= quantity` (no validation here). -/
def Unit.send_occupy (u : Unit) (quantity : ℤ) : Unit :=
  { u with quantity := u.quantity - quantity }

/-- Unit::fighting_power: coefficient of the type times the quantity. -/
def Unit.fighting_power (u : Unit) : ℚ :=
  u.unit_type.power * (u.quantity : ℚ)

-- ===== buildings.rs =====

/-- Building from buildings.rs. -/
inductive Building
| Base
deriving DecidableEq

/-- Display text of a building (buildings.rs Display impl). -/
def Building.display : Building → String
| .Base => "BASE"

/-- Building::capacity (HasCapacity impl). -/
def Building.capacity : Building → ℤ
| .Base => BASE_CAPACITY

/-- Building::value (HasValue impl). -/
def Building.value : Building → ℤ × ℤ
| .Base => BASE_COST

-- ===== board.rs: data =====

/-- UnitInField from board.rs: a deposit of units by one owner. -/
structure UnitInField where
  owner : String
  unit : Unit
deriving DecidableEq

/-- GameField from board.rs: one cell with its coordinates and the
append-only list of deposits. -/
structure GameField where
  x : ℕ
  y : ℕ
  units_occupying : List UnitInField
deriving DecidableEq

/-- GameField::new: empty cell at the given coordinates. -/
def GameField.new (x y : ℕ) : GameField :=
  ⟨x, y, []⟩

/-- GameField::add_units: Vec::push appends the deposit at the end. -/
def GameField.add_units (f : GameField) (units : UnitInField) : GameField :=
  { f with units_occupying := f.units_occupying ++ [units] }

/-- GamePlan from board.rs: the battlefield grid stored as a flat list. -/
structure GamePlan where
  fields : List GameField
  width : ℕ
  height : ℕ

/-- GamePlan::new: cells pushed with x outer and y inner, so the flat
list is column-major with stride `height`. -/
def GamePlan.new (width height : ℕ) : GamePlan :=
  ⟨((List.range width).map
      (fun x => (List.range height).map (fun y => GameField.new x y))).flatten,
   width, height⟩

/-- GamePlan::get_game_field: `self.fields.get_mut(self.height * x + y)`,
a flat-index lookup with no per-coordinate bounds check. -/
def GamePlan.get_game_field (plan : GamePlan) (x y : ℕ) : Option GameField :=
  plan.fields.get? (plan.height * x + y)

-- ===== board.rs: evaluation =====

/-- One step of `*map.entry(k).or_insert(0) += v` on an association list
kept in first-occurrence order (the model of the HashMap accumulation). -/
def addEntry {γ : Type} [Zero γ] [Add γ] :
    List (String × γ) → String → γ → List (String × γ)
| [], k, v => [(k, 0 + v)]
| e :: rest, k, v =>
  if e.1 = k then (e.1, e.2 + v) :: rest else e :: addEntry rest k v

/-- The fold step used to accumulate a keyed value into the chart. -/
def chartStep {γ : Type} [Zero γ] [Add γ]
    (c : List (String × γ)) (e : String × γ) : List (String × γ) :=
  addEntry c e.1 e.2

/-- Accumulate a list of keyed values into the association-list model of
the HashMap frequency/power chart. -/
def buildChart {γ : Type} [Zero γ] [Add γ]
    (items : List (String × γ)) : List (String × γ) :=
  items.foldl chartStep []

/-- The per-owner power chart of a cell (the HashMap in evaluate_field). -/
def GameField.power_chart (f : GameField) : List (String × ℚ) :=
  buildChart (f.units_occupying.map (fun u => (u.owner, u.unit.fighting_power)))

/-- The highest aggregate power on a cell: fold of max seeded with
std::f64::MIN, exactly as in evaluate_field. -/
def GameField.highest_power (f : GameField) : ℚ :=
  (f.power_chart.map Prod.snd).foldl max F64_MIN

/-- GameField::evaluate_field: find an owner within tolerance 0.1 of the
highest power; the cell has a winner only when that owner is unique. -/
def GameField.evaluate_field (f : GameField) : Option String :=
  let chart := f.power_chart
  let highest := f.highest_power
  match chart.find? (fun e => |e.2 - highest| < 1 / 10) with
  | none => none
  | some e =>
    if (chart.filter (fun e2 => |e2.2 - highest| < 1 / 10)).length ≠ 1 then
      none
    else
      some e.1

/-- Structured outcome of GamePlan::evaluate (whose Rust original only
prints): the winner with their number of won cells, a draw carrying the
number of tied players and the shared tally, or no winner at all. -/
inductive MatchOutcome
| winner (name : String) (wins : ℕ)
| draw (tied : ℕ) (highest_wins : ℕ)
| noWinner
deriving DecidableEq

/-- GamePlan::evaluate: resolve every cell, tally wins per owner, then
report a unique owner of the maximum tally, or a draw with the count of
owners sharing the maximum, or no winner when nobody won a cell. -/
def GamePlan.evaluate (plan : GamePlan) : MatchOutcome :=
  let winners := plan.fields.filterMap GameField.evaluate_field
  let freq := buildChart (winners.map (fun w => (w, (1 : ℕ))))
  let highest := (freq.map Prod.snd).foldl max 0
  match freq.find? (fun e => e.2 = highest) with
  | none => .noWinner
  | some e =>
    let tied := (freq.filter (fun e2 => e2.2 = e.2)).length
    if tied = 1 then .winner e.1 e.2 else .draw tied highest

-- ===== actions.rs =====

/-- Actions from actions.rs. -/
inductive Actions
| Build (building : Building)
| Harvest
| Train (unit_type : UnitType) (quantity : ℤ)
| Conquer (x y : ℕ) (unit_type : UnitType) (quantity : ℤ)
| Quit

-- ===== player.rs =====

/-- Player struct from player.rs. -/
structure Player where
  nick : String
  buildings : List Building
  archers : Unit
  warriors : Unit
  wood : Resource
  gold : Resource
deriving DecidableEq

/-- Player::new: fresh player with no buildings, units or resources. -/
def Player.new (nick : String) : Player :=
  ⟨nick, [], Unit.new .Archer, Unit.new .Warrior,
   Resource.new .Wood, Resource.new .Gold⟩

/-- Player::pay_for_item: check affordability of both resources first,
then subtract both; the state is threaded so that a (structurally
possible) partial debit would be observable. -/
def Player.pay_for_item (p : Player) (item_value : ℤ × ℤ) (quantity : ℤ) :
    Except String PUnit.{1} × Player :=
  let wood := item_value.1 * quantity
  let gold := item_value.2 * quantity
  if p.wood.can_pay wood && p.gold.can_pay gold then
    match p.wood.subtract wood with
    | .error e => (.error e, p)
    | .ok w2 =>
      let p2 := { p with wood := w2 }
      match p2.gold.subtract gold with
      | .error e => (.error e, p2)
      | .ok g2 => (.ok PUnit.unit, { p2 with gold := g2 })
  else
    let cannot_wood := if p.wood.can_pay wood then "" else p.wood.cannot_pay
    let cannot_gold := if p.gold.can_pay gold then "" else p.gold.cannot_pay
    (.error (cannot_wood ++ cannot_gold), p)

/-- Player::number_of_buildings: filter, map to 1, sum. -/
def Player.number_of_buildings (p : Player) (building_type : Building) : ℤ :=
  ((p.buildings.filter (fun b => b == building_type)).map
    (fun _ => (1 : ℤ))).sum

/-- Player::fighters_capacity: summed capacity of owned bases. -/
def Player.fighters_capacity (p : Player) : ℤ :=
  ((p.buildings.filter (fun b => b == Building.Base)).map
    (fun b => b.capacity)).sum

/-- Player::current_fighters_capacity: total capacity minus held units. -/
def Player.current_fighters_capacity (p : Player) : ℤ :=
  p.fighters_capacity - p.archers.quantity - p.warriors.quantity

/-- Player::has_fighters_available. -/
def Player.has_fighters_available (p : Player) : Bool :=
  decide (0 < p.archers.quantity + p.warriors.quantity)

/-- Success text of build_a_building (box formatting dropped). -/
def build_ok_msg (bt : Building) (count : ℤ) : String :=
  "Building of type " ++ bt.display ++ " was successfully built! " ++
    "You currently have " ++ toString count ++ " buildings of type " ++
    bt.display

/-- Player::build_a_building: pay for the building, then push it. -/
def Player.build_a_building (p : Player) (building_type : Building) :
    Except String String × Player :=
  match p.pay_for_item building_type.value 1 with
  | (.error e, p2) => (.error e, p2)
  | (.ok _, p2) =>
    let p3 := { p2 with buildings := p2.buildings ++ [building_type] }
    (.ok (build_ok_msg building_type (p3.number_of_buildings building_type)),
     p3)

/-- Error text of enough_units_to_send (box formatting dropped). -/
def not_enough_units_msg (q : ℤ) (ut : UnitType) (x y : ℕ) (cur : ℤ) :
    String :=
  "Cannot send " ++ toString q ++ " units of type " ++ ut.display ++
    " to occupy field (" ++ toString x ++ "," ++ toString y ++
    "). Not enough units available (" ++ toString cur ++ ")."

/-- Player::enough_units_to_send: fails when held < requested. -/
def Player.enough_units_to_send (p : Player) (game_field : GameField)
    (unit_type : UnitType) (quantity : ℤ) : Except String PUnit.{1} :=
  let current_quantity :=
    match unit_type with
    | .Archer => p.archers.quantity
    | .Warrior => p.warriors.quantity
  if current_quantity < quantity then
    .error (not_enough_units_msg quantity unit_type game_field.x game_field.y
      current_quantity)
  else
    .ok PUnit.unit

/-- Error text of occupy_fields for an unresolvable field. -/
def field_not_found_msg : String :=
  "Sorry. Specified game field does not exist!"

/-- Success text of occupy_fields (box formatting dropped). -/
def occupy_ok_msg (q : ℤ) (ut : UnitType) (x y : ℕ) : String :=
  toString q ++ " units of type " ++ ut.display ++
    " were successfully sent to occupy field (" ++ toString x ++ "," ++
    toString y ++ ")!"

/-- Player::occupy_fields: fail on a missing field, check held units,
then append the deposit to the cell and decrement the pool. -/
def Player.occupy_fields (p : Player) (game_field : Option GameField)
    (unit_type : UnitType) (quantity : ℤ) :
    Except String String × Player × Option GameField :=
  match game_field with
  | none => (.error field_not_found_msg, p, none)
  | some gf =>
    match p.enough_units_to_send gf unit_type quantity with
    | .error e => (.error e, p, some gf)
    | .ok _ =>
      let unit_to_send := Unit.unit_to_send unit_type quantity
      let gf2 := gf.add_units ⟨p.nick, unit_to_send⟩
      let p2 :=
        match unit_type with
        | .Archer => { p with archers := p.archers.send_occupy quantity }
        | .Warrior => { p with warriors := p.warriors.send_occupy quantity }
      (.ok (occupy_ok_msg quantity unit_type gf2.x gf2.y), p2, some gf2)

/-- Success text of harvest (box formatting dropped). -/
def harvest_ok_msg (w g cw cg : ℤ) : String :=
  "Harvest was a success! Gained " ++ toString w ++ " wood and " ++
    toString g ++ " gold! Current warehouse supplies are: " ++
    toString cw ++ ", " ++ toString cg ++ "."

/-- Player::harvest: credit the fixed HARVEST_GAIN to both ledgers. -/
def Player.harvest (p : Player) : Except String String × Player :=
  let wood := HARVEST_GAIN.1
  let gold := HARVEST_GAIN.2
  match p.wood.add wood with
  | .error e => (.error e, p)
  | .ok w2 =>
    let p2 := { p with wood := w2 }
    match p2.gold.add gold with
    | .error e => (.error e, p2)
    | .ok g2 =>
      let p3 := { p2 with gold := g2 }
      (.ok (harvest_ok_msg wood gold p3.wood.quantity p3.gold.quantity), p3)

/-- Error text of check_fighters_capacity (box formatting dropped). -/
def capacity_exceeded_msg (picked total : ℤ) : String :=
  "Cannot train new fighters, you picked too many units over capacity. " ++
    toString picked ++ " picked, " ++ toString total ++
    " is total capacity. Consider building a new base instead!"

/-- Player::check_fighters_capacity: fails when the remaining capacity is
below the requested quantity. -/
def Player.check_fighters_capacity (p : Player) (new_quantity : ℤ) :
    Except String PUnit.{1} :=
  if p.current_fighters_capacity < new_quantity then
    .error (capacity_exceeded_msg new_quantity p.fighters_capacity)
  else
    .ok PUnit.unit

/-- Success text of train_units (box formatting dropped). -/
def train_ok_msg (ut : UnitType) (q : ℤ) : String :=
  let quantity_string := if q = 1 then "unit" else "units"
  let plural := if q = 1 then "" else "S"
  "Training of " ++ toString q ++ " " ++ quantity_string ++ " of " ++
    ut.display ++ plural ++ " was successful"

/-- Player::train_units: capacity check, then payment, then training. -/
def Player.train_units (p : Player) (unit_type : UnitType) (quantity : ℤ) :
    Except String String × Player :=
  match p.check_fighters_capacity quantity with
  | .error e => (.error e, p)
  | .ok _ =>
    match p.pay_for_item unit_type.value quantity with
    | (.error e, p2) => (.error e, p2)
    | (.ok _, p2) =>
      let p3 :=
        match unit_type with
        | .Archer => { p2 with archers := p2.archers.train quantity }
        | .Warrior => { p2 with warriors := p2.warriors.train quantity }
      (.ok (train_ok_msg unit_type quantity), p3)

/-- Player::perform_action: dispatch on the action; a Conquer resolves
the flat index height*x + y and writes the mutated cell back. -/
def Player.perform_action (p : Player) (action : Actions)
    (game_plan : GamePlan) : Except String String × Player × GamePlan :=
  match action with
  | .Build building =>
    let r := p.build_a_building building
    (r.1, r.2, game_plan)
  | .Conquer x y unit_type quantity =>
    let idx := game_plan.height * x + y
    let r := p.occupy_fields (game_plan.fields.get? idx) unit_type quantity
    let plan2 :=
      match r.2.2 with
      | none => game_plan
      | some f => { game_plan with fields := game_plan.fields.set idx f }
    (r.1, r.2.1, plan2)
  | .Harvest =>
    let r := p.harvest
    (r.1, r.2, game_plan)
  | .Train unit_type quantity =>
    let r := p.train_units unit_type quantity
    (r.1, r.2, game_plan)
  | .Quit => (.ok "Unreachable statement", p, game_plan)

/-- Player::train_max_units: resource-affordable count capped by the
TOTAL base capacity (fighters_capacity, not the remaining capacity). -/
def Player.train_max_units (p : Player) (unit_type : UnitType) : ℤ :=
  let unit_wood := unit_type.value.1
  let unit_gold := unit_type.value.2
  match unit_type with
  | .Archer => min (p.gold.quantity.tdiv unit_gold) p.fighters_capacity
  | .Warrior =>
    min (min (p.wood.quantity.tdiv unit_wood) (p.gold.quantity.tdiv unit_gold))
      p.fighters_capacity

/-- Player::send_max_units: the held quantity of the given type. -/
def Player.send_max_units (p : Player) (unit_type : UnitType) : ℤ :=
  match unit_type with
  | .Archer => p.archers.quantity
  | .Warrior => p.warriors.quantity

-- ===== auxiliary definitions used by the statements and proofs =====

/-- The total value stored in a chart under a key (robust against
duplicated keys; on the nodup-key charts built here it is the value of
the unique entry with that key). -/
def chartVal {γ : Type} [Zero γ] [Add γ] (k : String) :
    List (String × γ) → γ
| [] => 0
| e :: rest => (if e.1 = k then e.2 else 0) + chartVal k rest

/-- The sum of the values carried by a key across a keyed item list. -/
def keySum {γ : Type} [AddCommMonoid γ] (k : String)
    (items : List (String × γ)) : γ :=
  ((items.filter (fun e => e.1 == k)).map Prod.snd).sum

/-- The winner a contender list yields: the sole entry when the list is
a singleton, nobody otherwise (the shape of evaluate_field's decision). -/
def uniqueSurvivor (l : List (String × ℚ)) : Option String :=
  match l with
  | [e] => some e.1
  | _ => none

/-- The win tally of one owner: how many resolved cells name them. -/
def winTally (winners : List String) (o : String) : ℕ :=
  (winners.filter (fun w => w == o)).length

/-- Number of distinct owners whose win tally equals M. -/
def tiedOwnerCount (winners : List String) (M : ℕ) : ℕ :=
  (winners.dedup.filter (fun o => decide (winTally winners o = M))).length

/-- A copy of a player with both unit pools emptied; train_max_units is
insensitive to this change because it only consults resources and total
base capacity. -/
def clearUnits (p : Player) : Player :=
  { p with archers := ⟨p.archers.unit_type, 0⟩,
           warriors := ⟨p.warriors.unit_type, 0⟩ }

/-- A reachable player state: fresh player, 20 harvests, one base built,
10 archers trained. Resulting resources: 3780 wood, 2200 gold. -/
def demo_player : Player :=
  let p := (fun q => (Player.harvest q).2)^[20] (Player.new "A")
  let p2 := (p.build_a_building .Base).2
  (p2.train_units .Archer 10).2

-- ===== theorems =====

/-- C8: for every player state, Harvest succeeds, increases the wood
balance by exactly 200 and the gold balance by exactly 120, and changes
nothing else (nick, buildings, units and resource types are untouched). -/
theorem harvest_gains_exactly (p : Player) :
    p.harvest =
      (.ok (harvest_ok_msg 200 120 (p.wood.quantity + 200)
            (p.gold.quantity + 120)),
       { p with wood := ⟨p.wood.resource_type, p.wood.quantity + 200⟩,
                gold := ⟨p.gold.resource_type, p.gold.quantity + 120⟩ }) := by
  simp [Player.harvest, Resource.add, HARVEST_GAIN]

/-- C3 (amended): Resource::add rejects exactly the amount 0 and leaves
the balance unchanged in that case; any nonzero amount (negative ones
included) succeeds and changes the balance by exactly that amount, so
only positive credits preserve non-negativity. -/
theorem resource_add_amended (r : Resource) (q : ℤ) :
    (q = 0 → r.add q = .error (cannot_add_msg r))
    ∧ (q ≠ 0 → r.add q = .ok ⟨r.resource_type, r.quantity + q⟩)
    ∧ (0 ≤ r.quantity → 0 < q →
        r.add q = .ok ⟨r.resource_type, r.quantity + q⟩
        ∧ 0 ≤ r.quantity + q) := by
  refine ⟨fun h => ?_, fun h => ?_, fun h1 h2 => ⟨?_, by omega⟩⟩ <;>
    simp [Resource.add, *] <;> omega

/-- C3 witness: the amended theorem applied at a concrete positive
credit on a fresh wood ledger. -/
theorem resource_add_amended_witness :
    (5 : ℤ) ≠ 0
    ∧ (Resource.new .Gold).add 5 =
        .ok ⟨(Resource.new .Gold).resource_type,
             (Resource.new .Gold).quantity + 5⟩ :=
  ⟨by decide, (resource_add_amended (Resource.new .Gold) 5).2.1 (by decide)⟩

/-- C3 counterexample: crediting the negative amount -1 does not fail;
it succeeds and drives a fresh ledger's balance to -1, refuting both the
claimed rejection of amounts below zero and the claimed non-negativity
of balances under credit. -/
theorem resource_add_negative_cex :
    (Resource.new .Wood).add (-1) = .ok ⟨.Wood, -1⟩ := by
  simp [Resource.add, Resource.new]

/-- C6: Train(kind, qty) with positive qty fails with the
capacity-exceeded error whenever held units plus qty exceed the total
base capacity, and in that case the player state — resources and held
quantities included — is returned unchanged. -/
theorem train_units_capacity_exceeded (p : Player) (ut : UnitType) (q : ℤ)
    (_hq : 0 < q)
    (hcap : p.fighters_capacity < p.archers.quantity + p.warriors.quantity + q) :
    p.train_units ut q =
      (.error (capacity_exceeded_msg q p.fighters_capacity), p) := by
  have h : p.current_fighters_capacity < q := by
    unfold Player.current_fighters_capacity; omega
  unfold Player.train_units Player.check_fighters_capacity
  rw [if_pos h]

/-- C6 witness: a fresh player (capacity 0) asking to train one warrior
hits the capacity error and is left unchanged. -/
theorem train_units_capacity_exceeded_witness :
    (0 : ℤ) < 1
    ∧ (Player.new "A").fighters_capacity <
        (Player.new "A").archers.quantity + (Player.new "A").warriors.quantity + 1
    ∧ (Player.new "A").train_units .Warrior 1 =
        (.error (capacity_exceeded_msg 1 (Player.new "A").fighters_capacity),
         Player.new "A") :=
  ⟨by decide, by decide,
   train_units_capacity_exceeded (Player.new "A") .Warrior 1 (by decide) (by decide)⟩

/-- Appending one building of a type increases its count by one. -/
theorem number_of_buildings_push (p : Player) (l : List Building)
    (bt : Building) (h : p.buildings = l ++ [bt]) :
    p.number_of_buildings bt =
      (((l.filter (fun b => b == bt)).map (fun _ => (1 : ℤ))).sum) + 1 := by
  simp [Player.number_of_buildings, h, List.filter_append]

/-- C7: Build(Base) with wood ≥ 220 and gold ≥ 100 succeeds, debits
exactly 220 wood and 100 gold, and appends exactly one Base; with either
resource short it fails and returns the player unchanged (both
affordability checks precede either debit). -/
theorem build_base_exact (p : Player) :
    (220 ≤ p.wood.quantity → 100 ≤ p.gold.quantity →
      p.build_a_building .Base =
        (.ok (build_ok_msg .Base (p.number_of_buildings .Base + 1)),
         { p with buildings := p.buildings ++ [.Base],
                  wood := ⟨p.wood.resource_type, p.wood.quantity - 220⟩,
                  gold := ⟨p.gold.resource_type, p.gold.quantity - 100⟩ })
      ∧ Player.number_of_buildings
          { p with buildings := p.buildings ++ [.Base] } .Base
          = p.number_of_buildings .Base + 1)
    ∧ (¬ (220 ≤ p.wood.quantity ∧ 100 ≤ p.gold.quantity) →
        ∃ e, p.build_a_building .Base = (.error e, p)) := by
  constructor
  · intro hw hg
    have h1 : (0 : ℤ) ≤ p.wood.quantity - 220 * 1 := by omega
    have h2 : (0 : ℤ) ≤ p.gold.quantity - 100 * 1 := by omega
    constructor
    · simp [Player.build_a_building, Player.pay_for_item, Building.value,
        BASE_COST, Resource.can_pay, Resource.subtract, h1, h2,
        Player.number_of_buildings, List.filter_append, hw, hg]
    · simp [Player.number_of_buildings, List.filter_append]
  · intro hno
    have h3 : ¬ ((0 : ℤ) ≤ p.wood.quantity - 220 * 1)
        ∨ ¬ ((0 : ℤ) ≤ p.gold.quantity - 100 * 1) := by omega
    have hcond : ¬ (p.wood.can_pay 220 = true ∧ p.gold.can_pay 100 = true) := by
      rcases h3 with h3 | h3 <;> simp [Resource.can_pay] <;> omega
    refine ⟨(if p.wood.can_pay (220 * 1) then "" else p.wood.cannot_pay) ++
            (if p.gold.can_pay (100 * 1) then "" else p.gold.cannot_pay), ?_⟩
    simp [Player.build_a_building, Player.pay_for_item, Building.value,
      BASE_COST, hcond]

/-- C7 witness: a player with 400 wood and 240 gold builds a base,
landing on 180 wood, 140 gold, and one Base building. -/
theorem build_base_exact_witness :
    (220 : ℤ) ≤ (demo_player.wood.quantity)
    ∧ (100 : ℤ) ≤ (demo_player.gold.quantity)
    ∧ demo_player.build_a_building .Base =
        (.ok (build_ok_msg .Base (demo_player.number_of_buildings .Base + 1)),
         { demo_player with
             buildings := demo_player.buildings ++ [.Base],
             wood := ⟨demo_player.wood.resource_type,
                      demo_player.wood.quantity - 220⟩,
             gold := ⟨demo_player.gold.resource_type,
                      demo_player.gold.quantity - 100⟩ }) :=
  ⟨by decide, by decide,
   ((build_base_exact demo_player).1 (by decide) (by decide)).1⟩

/-- C1 (amended): the Actor performs no positivity validation. For a
player in a reachable-shape state (non-negative resources and pools,
held units within capacity), Train(kind, 0) succeeds and leaves the
player unchanged, Conquer of a resolvable field with quantity 0 succeeds
and appends a zero-quantity deposit while leaving the player unchanged,
and a negative Train quantity even succeeds while crediting resources
and driving the pool negative. -/
theorem actor_accepts_nonpositive (p : Player) (ut : UnitType)
    (hw : 0 ≤ p.wood.quantity) (hg : 0 ≤ p.gold.quantity)
    (ha : 0 ≤ p.archers.quantity) (hr : 0 ≤ p.warriors.quantity)
    (hcap : p.archers.quantity + p.warriors.quantity ≤ p.fighters_capacity) :
    p.train_units ut 0 = (.ok (train_ok_msg ut 0), p)
    ∧ (∀ gf : GameField, p.occupy_fields (some gf) ut 0 =
        (.ok (occupy_ok_msg 0 ut gf.x gf.y), p,
         some (gf.add_units ⟨p.nick, ⟨ut, 0⟩⟩)))
    ∧ (Player.new "A").train_units .Warrior (-1) =
        (.ok (train_ok_msg .Warrior (-1)),
         ⟨"A", [], ⟨.Archer, 0⟩, ⟨.Warrior, -1⟩, ⟨.Wood, 10⟩, ⟨.Gold, 5⟩⟩) := by
  have hc : ¬ (p.current_fighters_capacity < 0) := by
    unfold Player.current_fighters_capacity; omega
  refine ⟨?_, fun gf => ?_, by rfl⟩
  · cases ut <;>
      simp [Player.train_units, Player.check_fighters_capacity, hc,
        Player.pay_for_item, UnitType.value, ARCHER_COST, WARRIOR_COST,
        Resource.can_pay, Resource.subtract, Unit.train, hw, hg]
  · have hq : ¬ (p.archers.quantity < 0) := by omega
    have hq2 : ¬ (p.warriors.quantity < 0) := by omega
    cases ut <;>
      simp [Player.occupy_fields, Player.enough_units_to_send, hq, hq2,
        Unit.unit_to_send, Unit.send_occupy, GameField.add_units]

/-- C1 witness: the amended theorem applied to a fresh player and the
single cell of the default battlefield. -/
theorem actor_accepts_nonpositive_witness :
    (Player.new "B").train_units .Archer 0 =
      (.ok (train_ok_msg .Archer 0), Player.new "B")
    ∧ (Player.new "B").occupy_fields (some (GameField.new 0 0)) .Archer 0 =
        (.ok (occupy_ok_msg 0 .Archer 0 0), Player.new "B",
         some ((GameField.new 0 0).add_units ⟨(Player.new "B").nick, ⟨.Archer, 0⟩⟩)) :=
  ⟨(actor_accepts_nonpositive (Player.new "B") .Archer (by decide) (by decide)
      (by decide) (by decide) (by decide)).1,
   (actor_accepts_nonpositive (Player.new "B") .Archer (by decide) (by decide)
      (by decide) (by decide) (by decide)).2.1 (GameField.new 0 0)⟩

/-- C1 counterexample: Train(Warrior, 0) on a fresh player does not fail
with any error — it succeeds (and changes nothing), so the Actor does
not defensively reject non-positive quantities. -/
theorem train_zero_succeeds_cex :
    (Player.new "A").train_units .Warrior 0 =
      (.ok (train_ok_msg .Warrior 0), Player.new "A") := by
  rfl

/-- C10: train_max_units caps the affordable count by the TOTAL base
capacity rather than the remaining one: its value is insensitive to the
units already held, and on a reachable state (demo_player, holding 10
archers with one base and 2200 gold) it suggests 200 archers whose
training then fails with the capacity-exceeded error, unchanged state. -/
theorem train_max_units_uses_total_capacity :
    (∀ (p : Player) (ut : UnitType),
        p.train_max_units ut = (clearUnits p).train_max_units ut)
    ∧ 0 < demo_player.archers.quantity
    ∧ demo_player.train_max_units .Archer = 200
    ∧ demo_player.train_units .Archer (demo_player.train_max_units .Archer) =
        (.error (capacity_exceeded_msg 200 demo_player.fighters_capacity),
         demo_player) :=
  ⟨fun p ut => by cases ut <;> rfl, by decide, by rfl, by rfl⟩

/-- The battlefield of GamePlan::new keeps the requested height. -/
theorem gamePlan_new_height (w h : ℕ) : (GamePlan.new w h).height = h := rfl

/-- The flat cell list of GamePlan::new w h has length w * h. -/
theorem gamePlan_new_fields_length (w h : ℕ) :
    (GamePlan.new w h).fields.length = w * h := by
  induction w with
  | zero => simp [GamePlan.new]
  | succ n ih =>
    have hstep : (GamePlan.new (n + 1) h).fields =
        (GamePlan.new n h).fields ++ (List.range h).map (fun y => GameField.new n y) := by
      simp [GamePlan.new, List.range_succ]
    rw [hstep, List.length_append, ih, List.length_map, List.length_range,
      Nat.succ_mul]

/-- Splitting off the last column of cells of GamePlan::new. -/
theorem gamePlan_new_fields_succ (w h : ℕ) :
    (GamePlan.new (w + 1) h).fields =
      (GamePlan.new w h).fields ++
        (List.range h).map (fun y => GameField.new w y) := by
  simp [GamePlan.new, List.range_succ]

/-- The cell stored at flat index i of GamePlan::new w h has coordinates
(i / h, i % h). -/
theorem gamePlan_new_get (w h : ℕ) : ∀ i : ℕ, 0 < h → i < w * h →
    (GamePlan.new w h).fields.get? i = some (GameField.new (i / h) (i % h)) := by
  induction w with
  | zero => intro i _ hi; omega
  | succ n ih =>
    intro i hh hi
    rw [gamePlan_new_fields_succ]
    by_cases hlt : i < n * h
    · rw [List.get?_append (by rw [gamePlan_new_fields_length]; exact hlt)]
      exact ih i hh hlt
    · have h1 : n * h ≤ i := le_of_not_lt hlt
      have h2 : i < n * h + h := by
        have h2a : (n + 1) * h = n * h + h := by ring
        omega
      have h3 : i - n * h < h := by omega
      rw [List.get?_append_right (by rw [gamePlan_new_fields_length]; exact h1)]
      rw [gamePlan_new_fields_length, List.get?_map, List.get?_range h3]
      have hdiv : i / h = n := by
        apply Nat.div_eq_of_lt_le h1
        have h2a : (n + 1) * h = n * h + h := by ring
        omega
      have hmod : i % h = i - n * h := by
        have hmd := Nat.mod_add_div i h
        rw [hdiv] at hmd
        have hcomm : h * n = n * h := Nat.mul_comm h n
        omega
      rw [hdiv, hmod, Option.map_some']

/-- C2 (amended): coordinate resolution is a bare flat-index lookup at
height*x + y. It yields a cell exactly when that index is below
width*height — so some out-of-bounds (x, y) resolve to a cell, and then
possibly to one with different coordinates. Coordinates that are truly
in bounds resolve to the cell with exactly those coordinates, and when
the flat index falls off the list, Conquer fails with the
field-not-found error and changes neither player nor battlefield. -/
theorem get_game_field_flat_index (w h x y : ℕ) :
    (((GamePlan.new w h).get_game_field x y).isSome ↔ h * x + y < w * h)
    ∧ (x < w → y < h →
        (GamePlan.new w h).get_game_field x y = some (GameField.new x y))
    ∧ (∀ (p : Player) (plan : GamePlan) (ut : UnitType) (q : ℤ),
        plan.fields.get? (plan.height * x + y) = none →
        p.perform_action (.Conquer x y ut q) plan =
          (.error field_not_found_msg, p, plan)) := by
  refine ⟨?_, ?_, ?_⟩
  · rw [GamePlan.get_game_field, gamePlan_new_height]
    constructor
    · intro hs
      by_contra hge
      rw [List.get?_eq_none.2 (by rw [gamePlan_new_fields_length]; omega)] at hs
      simp at hs
    · intro hlt
      have hh : 0 < h := by
        rcases Nat.eq_zero_or_pos h with h0 | h0
        · subst h0; simp at hlt
        · exact h0
      rw [gamePlan_new_get w h _ hh hlt]
      rfl
  · intro hx hy
    have hh : 0 < h := by omega
    have hi : h * x + y < w * h := by
      calc h * x + y < h * x + h := by omega
        _ = h * (x + 1) := by ring
        _ ≤ h * w := Nat.mul_le_mul_left h hx
        _ = w * h := Nat.mul_comm h w
    rw [GamePlan.get_game_field, gamePlan_new_height,
      gamePlan_new_get w h _ hh hi]
    have hdiv : (h * x + y) / h = x := by
      rw [Nat.mul_add_div hh, Nat.div_eq_of_lt hy, Nat.add_zero]
    have hmod : (h * x + y) % h = y := by
      rw [Nat.mul_add_mod, Nat.mod_eq_of_lt hy]
    rw [hdiv, hmod]
  · intro p plan ut q hnone
    rw [List.get?_eq_getElem?] at hnone
    simp [Player.perform_action, Player.occupy_fields, hnone]

/-- C2 witness: the amended theorem at a 2-by-2 board for the in-bounds
case and at the default 1-by-1 board for the failing Conquer. -/
theorem get_game_field_flat_index_witness :
    (GamePlan.new 2 2).get_game_field 1 1 = some (GameField.new 1 1)
    ∧ (GamePlan.new 1 1).fields.get?
        ((GamePlan.new 1 1).height * 3 + 0) = none
    ∧ (Player.new "A").perform_action (.Conquer 3 0 .Archer 1)
        (GamePlan.new 1 1) =
        (.error field_not_found_msg, Player.new "A", GamePlan.new 1 1) :=
  ⟨(get_game_field_flat_index 2 2 1 1).2.1 (by decide) (by decide),
   by rfl,
   (get_game_field_flat_index 1 1 3 0).2.2 (Player.new "A")
     (GamePlan.new 1 1) .Archer 1 (by rfl)⟩

/-- C2 counterexample: on a 2-by-2 battlefield the out-of-bounds
coordinates (0, 2) — y equals the height — still resolve to a cell, and
to the wrong one: the cell with coordinates (1, 0). -/
theorem get_game_field_oob_cex :
    (GamePlan.new 2 2).get_game_field 0 2 = some (GameField.new 1 0) := by
  rfl

-- ===== chart lemmas =====

/-- The key list of addEntry: unchanged when the key is present,
extended at the end otherwise. -/
theorem addEntry_map_fst {γ : Type} [Zero γ] [Add γ]
    (c : List (String × γ)) (k : String) (v : γ) :
    (addEntry c k v).map Prod.fst =
      if k ∈ c.map Prod.fst then c.map Prod.fst
      else c.map Prod.fst ++ [k] := by
  induction c with
  | nil => simp [addEntry]
  | cons e rest ih =>
    by_cases hek : e.1 = k
    · simp [addEntry, hek]
    · by_cases hk : k ∈ rest.map Prod.fst <;>
        simp [addEntry, hek, ih, hk, Ne.symm hek]

/-- addEntry preserves distinctness of keys. -/
theorem addEntry_nodup_keys {γ : Type} [Zero γ] [Add γ]
    (c : List (String × γ)) (k : String) (v : γ)
    (h : (c.map Prod.fst).Nodup) :
    ((addEntry c k v).map Prod.fst).Nodup := by
  rw [addEntry_map_fst]
  by_cases hk : k ∈ c.map Prod.fst
  · simp [hk, h]
  · rw [if_neg hk, List.nodup_append]
    refine ⟨h, List.nodup_singleton k, ?_⟩
    intro a ha hb
    simp at hb
    subst hb
    exact hk ha

/-- Key membership after addEntry. -/
theorem mem_addEntry_map_fst {γ : Type} [Zero γ] [Add γ]
    (c : List (String × γ)) (k k2 : String) (v : γ) :
    k2 ∈ (addEntry c k v).map Prod.fst ↔
      k2 ∈ c.map Prod.fst ∨ k2 = k := by
  rw [addEntry_map_fst]
  by_cases hk : k ∈ c.map Prod.fst
  · simp only [if_pos hk]
    constructor
    · exact fun h2 => Or.inl h2
    · rintro (h2 | rfl)
      · exact h2
      · exact hk
  · simp [hk]

/-- How addEntry changes the total value under each key. -/
theorem chartVal_addEntry {γ : Type} [AddCommMonoid γ]
    (c : List (String × γ)) (k2 k : String) (v : γ) :
    chartVal k (addEntry c k2 v) =
      chartVal k c + (if k2 = k then v else 0) := by
  induction c with
  | nil => by_cases h : k2 = k <;> simp [addEntry, chartVal, h]
  | cons e rest ih =>
    by_cases h : k2 = k
    · subst h
      by_cases hek : e.1 = k2
      · simp [addEntry, chartVal, hek]
        abel
      · simp [addEntry, chartVal, hek, ih]
    · by_cases hek : e.1 = k2
      · simp [addEntry, chartVal, hek, h]
      · simp [addEntry, chartVal, hek, h, ih]

/-- Folding items into a chart adds each key's value sum. -/
theorem chartVal_foldl {γ : Type} [AddCommMonoid γ]
    (items : List (String × γ)) :
    ∀ (c : List (String × γ)) (k : String),
      chartVal k (items.foldl chartStep c) = chartVal k c + keySum k items := by
  induction items with
  | nil => intro c k; simp [keySum]
  | cons i rest ih =>
    intro c k
    rw [List.foldl_cons, ih, chartStep, chartVal_addEntry]
    have hks : keySum k (i :: rest) =
        (if i.1 = k then i.2 else 0) + keySum k rest := by
      by_cases h : i.1 = k <;> simp [keySum, List.filter_cons, h]
    rw [hks]
    abel

/-- The chart stores under each key exactly that key's value sum. -/
theorem chartVal_buildChart {γ : Type} [AddCommMonoid γ]
    (items : List (String × γ)) (k : String) :
    chartVal k (buildChart items) = keySum k items := by
  rw [buildChart, chartVal_foldl]
  simp [chartVal]

/-- Folding keyed items never duplicates keys. -/
theorem foldl_chartStep_nodup {γ : Type} [Zero γ] [Add γ]
    (items : List (String × γ)) :
    ∀ c : List (String × γ), (c.map Prod.fst).Nodup →
      ((items.foldl chartStep c).map Prod.fst).Nodup := by
  induction items with
  | nil => intro c h; exact h
  | cons i rest ih =>
    intro c h
    exact ih _ (addEntry_nodup_keys _ _ _ h)

/-- Key membership of a folded chart. -/
theorem mem_foldl_chartStep {γ : Type} [Zero γ] [Add γ]
    (items : List (String × γ)) :
    ∀ (c : List (String × γ)) (k2 : String),
      k2 ∈ (items.foldl chartStep c).map Prod.fst ↔
        k2 ∈ c.map Prod.fst ∨ k2 ∈ items.map Prod.fst := by
  induction items with
  | nil => simp
  | cons i rest ih =>
    intro c k2
    rw [List.foldl_cons, ih, chartStep, mem_addEntry_map_fst]
    simp [List.mem_cons]
    tauto

/-- buildChart has distinct keys. -/
theorem buildChart_nodup_keys {γ : Type} [Zero γ] [Add γ]
    (items : List (String × γ)) :
    ((buildChart items).map Prod.fst).Nodup :=
  foldl_chartStep_nodup items [] (by simp)

/-- buildChart's keys are exactly the item keys. -/
theorem mem_buildChart_map_fst {γ : Type} [Zero γ] [Add γ]
    (items : List (String × γ)) (k : String) :
    k ∈ (buildChart items).map Prod.fst ↔ k ∈ items.map Prod.fst := by
  rw [buildChart, mem_foldl_chartStep]
  simp

/-- A key absent from a chart stores value zero. -/
theorem chartVal_eq_zero_of_not_mem {γ : Type} [AddCommMonoid γ]
    (c : List (String × γ)) (k : String) (h : k ∉ c.map Prod.fst) :
    chartVal k c = 0 := by
  induction c with
  | nil => rfl
  | cons e rest ih =>
    simp only [List.map_cons, List.mem_cons] at h
    push_neg at h
    simp [chartVal, Ne.symm h.1, ih h.2]

/-- On a nodup-key chart, each entry's value is its key's chartVal. -/
theorem snd_eq_chartVal_of_mem {γ : Type} [AddCommMonoid γ]
    (c : List (String × γ)) (hnd : (c.map Prod.fst).Nodup)
    (e : String × γ) (he : e ∈ c) : e.2 = chartVal e.1 c := by
  induction c with
  | nil => cases he
  | cons a rest ih =>
    simp only [List.map_cons, List.nodup_cons] at hnd
    rcases List.mem_cons.1 he with rfl | he2
    · have hz : chartVal e.1 rest = 0 :=
        chartVal_eq_zero_of_not_mem rest e.1 hnd.1
      simp [chartVal, hz]
    · have hne : a.1 ≠ e.1 := by
        intro hcontra
        exact hnd.1 (hcontra ▸ (List.mem_map_of_mem Prod.fst he2))
      simp [chartVal, hne, ih hnd.2 he2]

/-- A nodup list whose members are exactly two distinct elements is one
of the two orderings of the pair. -/
theorem nodup_two_mem_eq {l : List String} {a b : String}
    (hnd : l.Nodup) (hab : a ≠ b)
    (hmem : ∀ x, x ∈ l ↔ x = a ∨ x = b) :
    l = [a, b] ∨ l = [b, a] := by
  cases l with
  | nil => exact absurd ((hmem a).2 (Or.inl rfl)) (List.not_mem_nil a)
  | cons x t =>
    cases t with
    | nil =>
      have hax := (hmem a).2 (Or.inl rfl)
      have hbx := (hmem b).2 (Or.inr rfl)
      simp at hax hbx
      exact absurd (hax.trans hbx.symm) hab
    | cons y t2 =>
      cases t2 with
      | nil =>
        have hx := (hmem x).1 (by simp)
        have hy := (hmem y).1 (by simp)
        have hxy : x ≠ y := by simp [List.nodup_cons] at hnd; tauto
        rcases hx with rfl | rfl
        · rcases hy with rfl | rfl
          · exact absurd rfl hxy
          · exact Or.inl rfl
        · rcases hy with rfl | rfl
          · exact Or.inr rfl
          · exact absurd rfl hxy
      | cons z t3 =>
        have hx := (hmem x).1 (by simp)
        have hy := (hmem y).1 (by simp)
        have hz := (hmem z).1 (by simp)
        simp [List.nodup_cons] at hnd
        rcases hx with rfl | rfl <;> rcases hy with rfl | rfl <;>
          rcases hz with rfl | rfl <;> simp_all

/-- A two-entry chart with key list [a, b] is literally a pair list. -/
theorem chart_of_map_fst_pair {γ : Type} (c : List (String × γ))
    (a b : String) (h : c.map Prod.fst = [a, b]) :
    ∃ va vb, c = [(a, va), (b, vb)] := by
  cases c with
  | nil => simp at h
  | cons e1 t =>
    cases t with
    | nil => simp at h
    | cons e2 t2 =>
      cases t2 with
      | nil =>
        simp only [List.map_cons, List.map_nil, List.cons.injEq] at h
        refine ⟨e1.2, e2.2, ?_⟩
        obtain ⟨h1, h2, -⟩ := h
        rw [← h1, ← h2]
      | cons e3 t3 => simp at h

-- ===== permutation machinery =====

/-- Folding max over a list is invariant under permutation. -/
theorem foldl_max_perm {l l2 : List ℚ} (h : l.Perm l2) :
    ∀ z : ℚ, l.foldl max z = l2.foldl max z := by
  induction h with
  | nil => intro z; rfl
  | cons x _ ih => intro z; simp only [List.foldl_cons]; exact ih _
  | swap x y t => intro z; simp only [List.foldl_cons]; rw [sup_right_comm]
  | trans _ _ ih1 ih2 => intro z; rw [ih1, ih2]

/-- find? returns the head of the filtered list. -/
theorem find?_eq_head?_filter {α : Type} (p : α → Bool) (l : List α) :
    l.find? p = (l.filter p).head? := by
  induction l with
  | nil => rfl
  | cons a t ih =>
    by_cases h : p a
    · rw [List.find?_cons_of_pos _ h, List.filter_cons_of_pos h]
      rfl
    · rw [List.find?_cons_of_neg _ (by simpa using h),
        List.filter_cons_of_neg (by simpa using h), ih]

/-- evaluate_field decides through the contender list: it names a winner
exactly when the tolerance filter keeps a single chart entry. -/
theorem evaluate_field_eq_uniqueSurvivor (f : GameField) :
    f.evaluate_field = uniqueSurvivor
      (f.power_chart.filter
        (fun e => decide (|e.2 - f.highest_power| < 1 / 10))) := by
  simp only [GameField.evaluate_field]
  rw [find?_eq_head?_filter]
  cases hfil : f.power_chart.filter
      (fun e => decide (|e.2 - f.highest_power| < 1 / 10)) with
  | nil => rfl
  | cons e t =>
    cases t with
    | nil => simp [uniqueSurvivor]
    | cons e2 t2 => simp [uniqueSurvivor]

/-- uniqueSurvivor is permutation-invariant. -/
theorem uniqueSurvivor_perm {l l2 : List (String × ℚ)} (h : l.Perm l2) :
    uniqueSurvivor l = uniqueSurvivor l2 := by
  cases l with
  | nil =>
    have h2 : l2 = [] := List.Perm.eq_nil h.symm
    subst h2; rfl
  | cons e t =>
    cases t with
    | nil =>
      have h2 : l2 = [e] := List.perm_singleton.1 h.symm
      subst h2; rfl
    | cons e2 t2 =>
      have hlen := h.length_eq
      cases l2 with
      | nil => simp at hlen
      | cons f t3 =>
        cases t3 with
        | nil => simp at hlen
        | cons f2 t4 => rfl

/-- Adding twice under the same key merges the two additions. -/
theorem addEntry_addEntry_same {γ : Type} [AddCommMonoid γ]
    (c : List (String × γ)) (k : String) (v1 v2 : γ) :
    addEntry (addEntry c k v1) k v2 = addEntry c k (v1 + v2) := by
  induction c with
  | nil => simp [addEntry, add_assoc]
  | cons e rest ih =>
    by_cases h : e.1 = k <;> simp [addEntry, h, ih, add_assoc]

/-- Two addEntry updates commute up to permutation of the chart. -/
theorem addEntry_comm_perm {γ : Type} [AddCommMonoid γ]
    (c : List (String × γ)) (k1 k2 : String) (v1 v2 : γ) :
    (addEntry (addEntry c k1 v1) k2 v2).Perm
      (addEntry (addEntry c k2 v2) k1 v1) := by
  by_cases h : k1 = k2
  · subst h
    rw [addEntry_addEntry_same, addEntry_addEntry_same, add_comm]
  · induction c with
    | nil =>
      simp [addEntry, h, Ne.symm h]
      exact List.Perm.swap _ _ _
    | cons e rest ih =>
      by_cases h1 : e.1 = k1 <;> by_cases h2 : e.1 = k2
      · exact absurd (h1.symm.trans h2) h
      · simp [addEntry, h1, h2, h]
      · simp [addEntry, h1, h2, Ne.symm h]
      · simp only [addEntry, if_neg h1, if_neg h2]
        exact List.Perm.cons e ih

/-- addEntry preserves chart permutation (for nodup-key charts). -/
theorem addEntry_perm_left {γ : Type} [Zero γ] [Add γ]
    {c c2 : List (String × γ)} (h : c.Perm c2) :
    (c.map Prod.fst).Nodup → ∀ (k : String) (v : γ),
      (addEntry c k v).Perm (addEntry c2 k v) := by
  induction h with
  | nil => intro _ k v; exact List.Perm.refl _
  | cons x hsub ih =>
    intro hnd k v
    simp only [List.map_cons, List.nodup_cons] at hnd
    by_cases hx : x.1 = k
    · simp only [addEntry, if_pos hx]
      exact List.Perm.cons _ hsub
    · simp only [addEntry, if_neg hx]
      exact List.Perm.cons _ (ih hnd.2 k v)
  | swap x y t =>
    intro hnd k v
    simp only [List.map_cons, List.nodup_cons, List.mem_cons] at hnd
    have hxy : y.1 ≠ x.1 := fun hc => hnd.1 (Or.inl hc)
    by_cases hy : y.1 = k <;> by_cases hx : x.1 = k
    · exact absurd (hy.trans hx.symm) hxy
    · simp only [addEntry, if_pos hy, if_neg hx, if_pos hy]
      exact List.Perm.swap _ _ _
    · simp only [addEntry, if_neg hy, if_pos hx]
      exact List.Perm.swap _ _ _
    · simp only [addEntry, if_neg hy, if_neg hx]
      exact List.Perm.swap _ _ _
  | trans h1 h2 ih1 ih2 =>
    intro hnd k v
    have hnd2 := ((h1.map Prod.fst).nodup_iff).1 hnd
    exact (ih1 hnd k v).trans (ih2 hnd2 k v)

/-- Folding the same items onto permuted charts keeps them permuted. -/
theorem foldl_chartStep_perm_acc {γ : Type} [Zero γ] [Add γ]
    (items : List (String × γ)) :
    ∀ {c c2 : List (String × γ)}, c.Perm c2 → (c.map Prod.fst).Nodup →
      (items.foldl chartStep c).Perm (items.foldl chartStep c2) := by
  induction items with
  | nil => intro c c2 h _; exact h
  | cons i rest ih =>
    intro c c2 h hnd
    exact ih (addEntry_perm_left h hnd i.1 i.2) (addEntry_nodup_keys _ _ _ hnd)

/-- Folding permuted items onto a nodup-key chart yields permuted
charts. -/
theorem foldl_chartStep_perm_items {γ : Type} [AddCommMonoid γ]
    {items items2 : List (String × γ)} (h : items.Perm items2) :
    ∀ c : List (String × γ), (c.map Prod.fst).Nodup →
      (items.foldl chartStep c).Perm (items2.foldl chartStep c) := by
  induction h with
  | nil => intro c _; exact List.Perm.refl _
  | cons x _ ih =>
    intro c hnd
    simp only [List.foldl_cons]
    exact ih _ (addEntry_nodup_keys _ _ _ hnd)
  | swap x y t =>
    intro c hnd
    simp only [List.foldl_cons]
    exact foldl_chartStep_perm_acc t (addEntry_comm_perm c y.1 x.1 y.2 x.2)
      (addEntry_nodup_keys _ _ _ (addEntry_nodup_keys _ _ _ hnd))
  | trans _ _ ih1 ih2 =>
    intro c hnd
    exact (ih1 c hnd).trans (ih2 c hnd)

/-- The chart of permuted items is a permutation of the chart. -/
theorem buildChart_perm {γ : Type} [AddCommMonoid γ]
    {items items2 : List (String × γ)} (h : items.Perm items2) :
    (buildChart items).Perm (buildChart items2) :=
  foldl_chartStep_perm_items h [] (by simp)

/-- Summed fighting power of same-kind units is the coefficient times
the summed quantity. -/
theorem sum_fighting_power_of_kind (l : List UnitInField) (k : UnitType)
    (hk : ∀ u ∈ l, u.unit.unit_type = k) :
    (l.map (fun u => u.unit.fighting_power)).sum =
      k.power * (((l.map (fun u => u.unit.quantity)).sum : ℤ) : ℚ) := by
  induction l with
  | nil => simp
  | cons u t ih =>
    have hu := hk u (by simp)
    have ht : ∀ v ∈ t, v.unit.unit_type = k := fun v hv => hk v (by simp [hv])
    have hfp : u.unit.fighting_power = k.power * (u.unit.quantity : ℚ) := by
      rw [Unit.fighting_power, hu]
    simp only [List.map_cons, List.sum_cons, hfp, ih ht]
    push_cast
    ring

/-- keySum over the owner/power items of a cell is the power sum of that
owner of the deposits. -/
theorem keySum_owner_items (us : List UnitInField) (o : String) :
    keySum o (us.map (fun u => (u.owner, u.unit.fighting_power))) =
      ((us.filter (fun u => u.owner == o)).map
        (fun u => u.unit.fighting_power)).sum := by
  unfold keySum
  rw [List.filter_map, List.map_map]
  rfl

/-- Any two-entry contender list with equal powers has no unique
survivor, whatever the highest power is. -/
theorem uniqueSurvivor_filter_pair (a b : String) (P h : ℚ) :
    uniqueSurvivor (([(a, P), (b, P)] : List (String × ℚ)).filter
      (fun e => decide (|e.2 - h| < 1 / 10))) = none := by
  cases hd : decide (|P - h| < 1 / 10) <;>
    simp only [List.filter, hd, uniqueSurvivor]

/-- C9: evaluate_field is invariant to the order of the deposits on a
cell: permuting units_occupying never changes the winner. -/
theorem evaluate_field_perm (x y : ℕ) (us us2 : List UnitInField)
    (hperm : us.Perm us2) :
    GameField.evaluate_field ⟨x, y, us⟩ =
      GameField.evaluate_field ⟨x, y, us2⟩ := by
  have hchart : (GameField.mk x y us).power_chart.Perm
      (GameField.mk x y us2).power_chart := by
    unfold GameField.power_chart
    exact buildChart_perm (hperm.map _)
  have hhigh : (GameField.mk x y us).highest_power =
      (GameField.mk x y us2).highest_power := by
    unfold GameField.highest_power
    exact foldl_max_perm (hchart.map Prod.snd) _
  rw [evaluate_field_eq_uniqueSurvivor, evaluate_field_eq_uniqueSurvivor,
    hhigh]
  exact uniqueSurvivor_perm (hchart.filter _)

/-- C9 witness: swapping two concrete deposits (an archer batch of A and
a warrior batch of B) leaves the cell outcome unchanged. -/
theorem evaluate_field_perm_witness :
    (([⟨"A", ⟨.Archer, 5⟩⟩, ⟨"B", ⟨.Warrior, 10⟩⟩] : List UnitInField).Perm
      ([⟨"B", ⟨.Warrior, 10⟩⟩, ⟨"A", ⟨.Archer, 5⟩⟩] : List UnitInField))
    ∧ GameField.evaluate_field
        ⟨0, 0, [⟨"A", ⟨.Archer, 5⟩⟩, ⟨"B", ⟨.Warrior, 10⟩⟩]⟩ =
      GameField.evaluate_field
        ⟨0, 0, [⟨"B", ⟨.Warrior, 10⟩⟩, ⟨"A", ⟨.Archer, 5⟩⟩]⟩ :=
  ⟨List.Perm.swap _ _ _,
   evaluate_field_perm 0 0 _ _ (List.Perm.swap _ _ _)⟩

/-- C4: a cell with no deposits has no winner, and a cell whose deposits
belong to exactly two distinct owners, all of one unit kind with equal
total quantities (hence equal aggregate powers), has no winner. -/
theorem evaluate_field_tie_none :
    (∀ x y : ℕ, GameField.evaluate_field ⟨x, y, []⟩ = none)
    ∧ (∀ (x y : ℕ) (us : List UnitInField) (a b : String) (k : UnitType),
        a ≠ b →
        (∀ u ∈ us, u.owner = a ∨ u.owner = b) →
        (∀ u ∈ us, u.unit.unit_type = k) →
        (∃ u ∈ us, u.owner = a) →
        (∃ u ∈ us, u.owner = b) →
        ((us.filter (fun u => u.owner == a)).map
            (fun u => u.unit.quantity)).sum =
          ((us.filter (fun u => u.owner == b)).map
            (fun u => u.unit.quantity)).sum →
        GameField.evaluate_field ⟨x, y, us⟩ = none) := by
  constructor
  · intro x y; rfl
  · intro x y us a b k hab hown hkind ha hb hsum
    have hckey : (GameField.mk x y us).power_chart.map Prod.fst =
        (buildChart (us.map (fun u => (u.owner, u.unit.fighting_power)))).map
          Prod.fst := rfl
    have hnd : ((GameField.mk x y us).power_chart.map Prod.fst).Nodup := by
      rw [hckey]; exact buildChart_nodup_keys _
    have hmemkeys : ∀ o, o ∈ (GameField.mk x y us).power_chart.map Prod.fst ↔
        o = a ∨ o = b := by
      intro o
      rw [hckey, mem_buildChart_map_fst, List.map_map]
      constructor
      · intro hmem
        obtain ⟨u, hu, huo⟩ := List.mem_map.1 hmem
        have := hown u hu
        simp only [Function.comp] at huo
        rcases this with h1 | h1
        · exact Or.inl (huo.symm.trans h1)
        · exact Or.inr (huo.symm.trans h1)
      · rintro (rfl | rfl)
        · obtain ⟨u, hu, huo⟩ := ha
          exact List.mem_map.2 ⟨u, hu, huo⟩
        · obtain ⟨u, hu, huo⟩ := hb
          exact List.mem_map.2 ⟨u, hu, huo⟩
    have hval : ∀ o, chartVal o (GameField.mk x y us).power_chart =
        k.power * ((((us.filter (fun u => u.owner == o)).map
          (fun u => u.unit.quantity)).sum : ℤ) : ℚ) := by
      intro o
      have h1 : chartVal o (GameField.mk x y us).power_chart =
          keySum o (us.map (fun u => (u.owner, u.unit.fighting_power))) :=
        chartVal_buildChart _ o
      rw [h1, keySum_owner_items]
      exact sum_fighting_power_of_kind _ k
        (fun u hu => hkind u (List.mem_of_mem_filter hu))
    rcases nodup_two_mem_eq hnd hab hmemkeys with hpair | hpair <;>
      obtain ⟨va, vb, hc⟩ := chart_of_map_fst_pair _ _ _ hpair
    · have hva : va = chartVal a (GameField.mk x y us).power_chart := by
        apply snd_eq_chartVal_of_mem _ hnd (a, va)
        rw [hc]; simp
      have hvb : vb = chartVal b (GameField.mk x y us).power_chart := by
        apply snd_eq_chartVal_of_mem _ hnd (b, vb)
        rw [hc]; simp
      have hvv : vb = va := by
        rw [hva, hvb, hval a, hval b, hsum]
      rw [evaluate_field_eq_uniqueSurvivor, hc, hvv]
      exact uniqueSurvivor_filter_pair a b va _
    · have hva : va = chartVal b (GameField.mk x y us).power_chart := by
        apply snd_eq_chartVal_of_mem _ hnd (b, va)
        rw [hc]; simp
      have hvb : vb = chartVal a (GameField.mk x y us).power_chart := by
        apply snd_eq_chartVal_of_mem _ hnd (a, vb)
        rw [hc]; simp
      have hvv : vb = va := by
        rw [hva, hvb, hval a, hval b, hsum]
      rw [evaluate_field_eq_uniqueSurvivor, hc, hvv]
      exact uniqueSurvivor_filter_pair b a va _

/-- C4 witness: A deposits 10 warriors, B deposits 5 warriors twice —
same kind, equal totals, two owners — and the cell has no winner; the
empty cell at (0,0) also has none. -/
theorem evaluate_field_tie_none_witness :
    GameField.evaluate_field ⟨0, 0, []⟩ = none
    ∧ GameField.evaluate_field
        ⟨0, 0, [⟨"A", ⟨.Warrior, 10⟩⟩, ⟨"B", ⟨.Warrior, 5⟩⟩,
                ⟨"B", ⟨.Warrior, 5⟩⟩]⟩ = none :=
  ⟨evaluate_field_tie_none.1 0 0,
   evaluate_field_tie_none.2 0 0
     [⟨"A", ⟨.Warrior, 10⟩⟩, ⟨"B", ⟨.Warrior, 5⟩⟩, ⟨"B", ⟨.Warrior, 5⟩⟩]
     "A" "B" .Warrior (by decide) (by decide) (by decide) (by decide)
     (by decide) (by decide)⟩

-- ===== match evaluation lemmas (C5) =====

/-- keySum over unit-weight items is the owner's win tally. -/
theorem keySum_winTally (winners : List String) (o : String) :
    keySum o (winners.map (fun w => (w, (1 : ℕ)))) = winTally winners o := by
  induction winners with
  | nil => rfl
  | cons w t ih =>
    by_cases h : w = o
    · simp only [keySum, winTally, List.map_cons, List.filter_cons, h] at ih ⊢
      simp [ih]
      omega
    · simp only [keySum, winTally, List.map_cons, List.filter_cons] at ih ⊢
      simp [h, ih]

/-- An owner has a positive tally exactly when they won some cell. -/
theorem winTally_pos (W : List String) (o : String) :
    0 < winTally W o ↔ o ∈ W := by
  constructor
  · intro h
    obtain ⟨x, hx⟩ := List.exists_mem_of_length_pos h
    have hm := List.mem_filter.1 hx
    have heq : x = o := by simpa using hm.2
    exact heq ▸ hm.1
  · intro h
    exact List.length_pos_of_mem
      (List.mem_filter.2 ⟨h, by simp⟩)

/-- Folding max over values all below M, one of them M, gives M. -/
theorem foldl_max_eq_nat {l : List ℕ} {M : ℕ} :
    ∀ {z : ℕ}, z ≤ M → (∀ v ∈ l, v ≤ M) → (M ∈ l ∨ z = M) →
      l.foldl max z = M := by
  induction l with
  | nil =>
    intro z _ _ hM
    rcases hM with h | h
    · cases h
    · exact h
  | cons v t ih =>
    intro z hz hall hM
    simp only [List.foldl_cons]
    have hv : v ≤ M := hall v (by simp)
    have htall : ∀ u ∈ t, u ≤ M := fun u hu => hall u (by simp [hu])
    rcases hM with hmem | hacc
    · rcases List.mem_cons.1 hmem with rfl | hM2
      · exact ih (max_le hz le_rfl) htall (Or.inr (max_eq_right hz))
      · exact ih (max_le hz hv) htall (Or.inl hM2)
    · subst hacc
      exact ih (max_le le_rfl hv) htall (Or.inr (max_eq_left hv))

/-- find? lands on the unique element satisfying the predicate. -/
theorem find?_eq_of_unique {α : Type} {p : α → Bool} {l : List α} {a : α}
    (ha : a ∈ l) (hp : p a = true)
    (huniq : ∀ e ∈ l, p e = true → e = a) :
    l.find? p = some a := by
  induction l with
  | nil => cases ha
  | cons x t ih =>
    by_cases hx : p x = true
    · rw [List.find?_cons_of_pos _ hx]
      exact congrArg some (huniq x (by simp) hx)
    · rw [List.find?_cons_of_neg _ (by simpa using hx)]
      apply ih
      · rcases List.mem_cons.1 ha with rfl | h2
        · exact absurd hp hx
        · exact h2
      · exact fun e he hpe => huniq e (by simp [he]) hpe

/-- On a nodup-key chart, filtering for the unique satisfying entry
keeps exactly that entry. -/
theorem filter_eq_singleton_of_unique {γ : Type} {p : String × γ → Bool}
    {l : List (String × γ)} {a : String × γ}
    (hnd : (l.map Prod.fst).Nodup) (ha : a ∈ l) (hp : p a = true)
    (huniq : ∀ e ∈ l, p e = true → e = a) :
    l.filter p = [a] := by
  induction l with
  | nil => cases ha
  | cons x t ih =>
    simp only [List.map_cons, List.nodup_cons] at hnd
    rcases List.mem_cons.1 ha with rfl | h2
    · rw [List.filter_cons_of_pos hp]
      have hnone : ∀ e ∈ t, ¬ p e = true := by
        intro e he hpe
        have hea := huniq e (by simp [he]) hpe
        subst hea
        exact hnd.1 (List.mem_map_of_mem Prod.fst he)
      rw [List.filter_eq_nil_iff.2 hnone]
    · by_cases hx : p x = true
      · have hxa := huniq x (by simp) hx
        subst hxa
        exact absurd (List.mem_map_of_mem Prod.fst h2) hnd.1
      · rw [List.filter_cons_of_neg (by simpa using hx)]
        exact ih hnd.2 h2 (fun e he hpe => huniq e (by simp [he]) hpe)

/-- Two distinct members force length at least two. -/
theorem two_mem_le_length {α : Type} {l : List α} {a b : α} (hab : a ≠ b)
    (ha : a ∈ l) (hb : b ∈ l) : 2 ≤ l.length := by
  cases l with
  | nil => cases ha
  | cons x t =>
    cases t with
    | nil =>
      simp at ha hb
      exact absurd (ha.trans hb.symm) hab
    | cons y t2 => simp [List.length_cons]

/-- Nodup lists with the same members have the same length. -/
theorem length_eq_of_nodup_mem_iff {l1 l2 : List String} (h1 : l1.Nodup)
    (h2 : l2.Nodup) (h : ∀ x, x ∈ l1 ↔ x ∈ l2) : l1.length = l2.length := by
  rw [← List.toFinset_card_of_nodup h1, ← List.toFinset_card_of_nodup h2]
  congr 1
  ext x
  simp [h x]

/-- The number of frequency entries at value M is the number of distinct
owners whose tally is M. -/
theorem freq_filter_length (W : List String) (M : ℕ) :
    ((buildChart (W.map (fun w => (w, (1 : ℕ))))).filter
      (fun e => decide (e.2 = M))).length = tiedOwnerCount W M := by
  set freq := buildChart (W.map (fun w => (w, (1 : ℕ)))) with hfreq
  have hndk : (freq.map Prod.fst).Nodup := buildChart_nodup_keys _
  have hkeys : ∀ o, o ∈ freq.map Prod.fst ↔ o ∈ W := by
    intro o
    rw [hfreq, mem_buildChart_map_fst, List.map_map]
    simp [Function.comp]
  have hentry : ∀ e ∈ freq, e.2 = winTally W e.1 := by
    intro e he
    have h1 := snd_eq_chartVal_of_mem freq hndk e he
    rw [hfreq] at h1
    rw [h1, chartVal_buildChart, keySum_winTally]
  have hnd1 : ((freq.filter (fun e => decide (e.2 = M))).map Prod.fst).Nodup :=
    hndk.sublist ((List.filter_sublist freq).map Prod.fst)
  have hmem1 : ∀ o,
      o ∈ (freq.filter (fun e => decide (e.2 = M))).map Prod.fst ↔
        (o ∈ W ∧ winTally W o = M) := by
    intro o
    constructor
    · intro hmem
      obtain ⟨e, he, rfl⟩ := List.mem_map.1 hmem
      have hef := List.mem_filter.1 he
      have he2 : e.2 = M := of_decide_eq_true hef.2
      refine ⟨(hkeys e.1).1 (List.mem_map_of_mem Prod.fst hef.1), ?_⟩
      rw [← hentry e hef.1, he2]
    · rintro ⟨hoW, hoM⟩
      obtain ⟨e, he, rfl⟩ := List.mem_map.1 ((hkeys o).2 hoW)
      apply List.mem_map_of_mem Prod.fst
      refine List.mem_filter.2 ⟨he, ?_⟩
      exact decide_eq_true (by rw [hentry e he]; exact hoM)
  have hnd2 : (W.dedup.filter (fun o => decide (winTally W o = M))).Nodup :=
    (List.nodup_dedup W).filter _
  have hmem2 : ∀ o,
      o ∈ W.dedup.filter (fun o => decide (winTally W o = M)) ↔
        (o ∈ W ∧ winTally W o = M) := by
    intro o
    rw [List.mem_filter, List.mem_dedup]
    simp
  rw [tiedOwnerCount, ← List.length_map
    (freq.filter (fun e => decide (e.2 = M))) Prod.fst]
  exact length_eq_of_nodup_mem_iff hnd1 hnd2
    (fun o => (hmem1 o).trans (hmem2 o).symm)

/-- C5 (amended): match evaluation tallies cell wins per owner with
exact integer counts; with no won cell it reports no winner; with a
unique owner of the maximum tally it reports that owner and their tally;
with two or more owners sharing the maximum it reports a draw carrying
the exact COUNT of tied owners and the shared tally — the tied owners
themselves are not part of the report. -/
theorem evaluate_match_report (plan : GamePlan) :
    ((∀ f ∈ plan.fields, f.evaluate_field = none) →
      plan.evaluate = .noWinner)
    ∧ (∀ (w : String) (M : ℕ), 0 < M →
        winTally (plan.fields.filterMap GameField.evaluate_field) w = M →
        (∀ o ∈ plan.fields.filterMap GameField.evaluate_field, o ≠ w →
          winTally (plan.fields.filterMap GameField.evaluate_field) o < M) →
        plan.evaluate = .winner w M)
    ∧ (∀ (a b : String) (M : ℕ), a ≠ b → 0 < M →
        winTally (plan.fields.filterMap GameField.evaluate_field) a = M →
        winTally (plan.fields.filterMap GameField.evaluate_field) b = M →
        (∀ o ∈ plan.fields.filterMap GameField.evaluate_field,
          winTally (plan.fields.filterMap GameField.evaluate_field) o ≤ M) →
        plan.evaluate =
          .draw (tiedOwnerCount
            (plan.fields.filterMap GameField.evaluate_field) M) M
        ∧ 2 ≤ tiedOwnerCount
            (plan.fields.filterMap GameField.evaluate_field) M) := by
  refine ⟨?_, ?_, ?_⟩
  · intro hall
    have hW : plan.fields.filterMap GameField.evaluate_field = [] :=
      List.filterMap_eq_nil_iff.2 hall
    simp only [GamePlan.evaluate, hW]
    rfl
  · intro w M hM hw hlt
    set W := plan.fields.filterMap GameField.evaluate_field with hWdef
    set freq := buildChart (W.map (fun w => (w, (1 : ℕ)))) with hfreq
    have hndk : (freq.map Prod.fst).Nodup := buildChart_nodup_keys _
    have hkeys : ∀ o, o ∈ freq.map Prod.fst ↔ o ∈ W := by
      intro o
      rw [hfreq, mem_buildChart_map_fst, List.map_map]
      simp [Function.comp]
    have hentry : ∀ e ∈ freq, e.2 = winTally W e.1 := by
      intro e he
      have h1 := snd_eq_chartVal_of_mem freq hndk e he
      rw [hfreq] at h1
      rw [h1, chartVal_buildChart, keySum_winTally]
    have hwmem : w ∈ W := (winTally_pos W w).1 (by omega)
    obtain ⟨ew, hew, hewfst⟩ := List.mem_map.1 ((hkeys w).2 hwmem)
    have hewpair : ew = (w, M) :=
      Prod.ext hewfst (by rw [hentry ew hew, hewfst, hw])
    have hvals : ∀ v ∈ freq.map Prod.snd, v ≤ M := by
      intro v hv
      obtain ⟨e, he, rfl⟩ := List.mem_map.1 hv
      rw [hentry e he]
      by_cases heq : e.1 = w
      · rw [heq, hw]
      · exact le_of_lt
          (hlt e.1 ((hkeys e.1).1 (List.mem_map_of_mem Prod.fst he)) heq)
    have hMmem : M ∈ freq.map Prod.snd := by
      have hm := List.mem_map_of_mem Prod.snd hew
      rw [hewpair] at hm
      exact hm
    have hhigh : (freq.map Prod.snd).foldl max 0 = M :=
      foldl_max_eq_nat (Nat.zero_le M) hvals (Or.inl hMmem)
    have huniq : ∀ e ∈ freq, decide (e.2 = M) = true → e = (w, M) := by
      intro e he hpe
      have he2 : e.2 = M := of_decide_eq_true hpe
      have he1 : e.1 = w := by
        by_contra hne
        have hlt2 := hlt e.1 ((hkeys e.1).1 (List.mem_map_of_mem Prod.fst he)) hne
        rw [hentry e he] at he2
        omega
      exact Prod.ext he1 he2
    have hfind : freq.find? (fun e => decide (e.2 = M)) = some (w, M) :=
      find?_eq_of_unique (hewpair ▸ hew) (by simp) huniq
    have hfil : freq.filter (fun e => decide (e.2 = M)) = [(w, M)] :=
      filter_eq_singleton_of_unique hndk (hewpair ▸ hew) (by simp) huniq
    simp only [GamePlan.evaluate]
    rw [← hWdef, ← hfreq, hhigh, hfind]
    simp [hfil]
  · intro a b M hab hM haM hbM hle
    set W := plan.fields.filterMap GameField.evaluate_field with hWdef
    set freq := buildChart (W.map (fun w => (w, (1 : ℕ)))) with hfreq
    have hndk : (freq.map Prod.fst).Nodup := buildChart_nodup_keys _
    have hkeys : ∀ o, o ∈ freq.map Prod.fst ↔ o ∈ W := by
      intro o
      rw [hfreq, mem_buildChart_map_fst, List.map_map]
      simp [Function.comp]
    have hentry : ∀ e ∈ freq, e.2 = winTally W e.1 := by
      intro e he
      have h1 := snd_eq_chartVal_of_mem freq hndk e he
      rw [hfreq] at h1
      rw [h1, chartVal_buildChart, keySum_winTally]
    have hamem : a ∈ W := (winTally_pos W a).1 (by omega)
    have hbmem : b ∈ W := (winTally_pos W b).1 (by omega)
    obtain ⟨ea, hea, heafst⟩ := List.mem_map.1 ((hkeys a).2 hamem)
    have heapair : ea = (a, M) :=
      Prod.ext heafst (by rw [hentry ea hea, heafst, haM])
    obtain ⟨eb, heb, hebfst⟩ := List.mem_map.1 ((hkeys b).2 hbmem)
    have hebpair : eb = (b, M) :=
      Prod.ext hebfst (by rw [hentry eb heb, hebfst, hbM])
    have hvals : ∀ v ∈ freq.map Prod.snd, v ≤ M := by
      intro v hv
      obtain ⟨e, he, rfl⟩ := List.mem_map.1 hv
      rw [hentry e he]
      exact hle e.1 ((hkeys e.1).1 (List.mem_map_of_mem Prod.fst he))
    have hMmem : M ∈ freq.map Prod.snd := by
      have hm := List.mem_map_of_mem Prod.snd hea
      rw [heapair] at hm
      exact hm
    have hhigh : (freq.map Prod.snd).foldl max 0 = M :=
      foldl_max_eq_nat (Nat.zero_le M) hvals (Or.inl hMmem)
    have haF : (a, M) ∈ freq.filter (fun e => decide (e.2 = M)) :=
      List.mem_filter.2 ⟨heapair ▸ hea, by simp⟩
    have hbF : (b, M) ∈ freq.filter (fun e => decide (e.2 = M)) :=
      List.mem_filter.2 ⟨hebpair ▸ heb, by simp⟩
    have hlen2 : 2 ≤ (freq.filter (fun e => decide (e.2 = M))).length :=
      two_mem_le_length (by simp [hab]) haF hbF
    have htlen : (freq.filter (fun e => decide (e.2 = M))).length =
        tiedOwnerCount W M := by
      rw [hfreq]
      exact freq_filter_length W M
    cases hF : freq.filter (fun e => decide (e.2 = M)) with
    | nil =>
      rw [hF] at hlen2
      simp at hlen2
    | cons e0 t0 =>
      have he0 := List.mem_filter.1 (hF ▸ List.mem_cons_self e0 t0)
      have he02 : e0.2 = M := of_decide_eq_true he0.2
      have hfind : freq.find? (fun e => decide (e.2 = M)) = some e0 := by
        rw [find?_eq_head?_filter, hF]
        rfl
      rw [hF] at hlen2 htlen
      simp only [List.length_cons] at hlen2 htlen
      refine ⟨?_, by omega⟩
      simp only [GamePlan.evaluate]
      rw [← hWdef, ← hfreq, hhigh, hfind]
      simp only [he02, hF, List.length_cons]
      rw [if_neg (by omega), htlen]

/-- A cell holding a single positive deposit is won by its owner. -/
theorem evaluate_field_single (x y : ℕ) (o : String) (ut : UnitType)
    (q : ℤ) (hq : 0 < q) :
    GameField.evaluate_field ⟨x, y, [⟨o, ⟨ut, q⟩⟩]⟩ = some o := by
  have hppos : (0 : ℚ) < ut.power := by
    cases ut <;> norm_num [UnitType.power, ARCHER_POWER, WARRIOR_POWER]
  have hfp : (0 : ℚ) < (⟨ut, q⟩ : Unit).fighting_power := by
    rw [Unit.fighting_power]
    exact mul_pos hppos (by exact_mod_cast hq)
  have hmin : F64_MIN < (0 : ℚ) := by norm_num [F64_MIN]
  set fp := (⟨ut, q⟩ : Unit).fighting_power with hfpdef
  have hchart : (GameField.mk x y [⟨o, ⟨ut, q⟩⟩]).power_chart =
      [(o, 0 + fp)] := by
    simp [GameField.power_chart, buildChart, chartStep, addEntry]
  have hmin2 : F64_MIN < 0 + fp := lt_trans hmin (by rw [zero_add]; exact hfp)
  have hhigh : (GameField.mk x y [⟨o, ⟨ut, q⟩⟩]).highest_power = 0 + fp := by
    rw [GameField.highest_power, hchart]
    simp only [List.map_cons, List.map_nil, List.foldl_cons, List.foldl_nil]
    exact max_eq_right (le_of_lt hmin2)
  rw [evaluate_field_eq_uniqueSurvivor, hchart, hhigh]
  have hdec : decide (|(0 + fp) - (0 + fp)| < 1 / 10) = true := by
    apply decide_eq_true
    rw [sub_self, abs_zero]
    norm_num
  simp [List.filter, hdec, uniqueSurvivor]

/-- C5 witness: the amended theorem applied at three concrete
battlefields: one with a single never-won cell (no winner), one whose
three cells go A, A, B (A wins with tally 2), and one whose two cells go
A and B (a draw whose reported count 2 is the number of tied owners). -/
theorem evaluate_match_report_witness :
    (GamePlan.mk [⟨0, 0, []⟩] 1 1).evaluate = .noWinner
    ∧ (GamePlan.mk [⟨0, 0, [⟨"A", ⟨.Archer, 1⟩⟩]⟩,
        ⟨0, 0, [⟨"A", ⟨.Archer, 1⟩⟩]⟩,
        ⟨0, 0, [⟨"B", ⟨.Archer, 1⟩⟩]⟩] 3 1).evaluate = .winner "A" 2
    ∧ (GamePlan.mk [⟨0, 0, [⟨"A", ⟨.Archer, 1⟩⟩]⟩,
        ⟨0, 0, [⟨"B", ⟨.Archer, 1⟩⟩]⟩] 2 1).evaluate =
        .draw (tiedOwnerCount
          ((GamePlan.mk [⟨0, 0, [⟨"A", ⟨.Archer, 1⟩⟩]⟩,
            ⟨0, 0, [⟨"B", ⟨.Archer, 1⟩⟩]⟩] 2 1).fields.filterMap
            GameField.evaluate_field) 1) 1
    ∧ tiedOwnerCount
        ((GamePlan.mk [⟨0, 0, [⟨"A", ⟨.Archer, 1⟩⟩]⟩,
          ⟨0, 0, [⟨"B", ⟨.Archer, 1⟩⟩]⟩] 2 1).fields.filterMap
          GameField.evaluate_field) 1 = 2 := by
  have hA : GameField.evaluate_field ⟨0, 0, [⟨"A", ⟨.Archer, 1⟩⟩]⟩ =
      some "A" := evaluate_field_single 0 0 "A" .Archer 1 (by decide)
  have hB : GameField.evaluate_field ⟨0, 0, [⟨"B", ⟨.Archer, 1⟩⟩]⟩ =
      some "B" := evaluate_field_single 0 0 "B" .Archer 1 (by decide)
  have hW3 : (GamePlan.mk [⟨0, 0, [⟨"A", ⟨.Archer, 1⟩⟩]⟩,
      ⟨0, 0, [⟨"A", ⟨.Archer, 1⟩⟩]⟩,
      ⟨0, 0, [⟨"B", ⟨.Archer, 1⟩⟩]⟩] 3 1).fields.filterMap
        GameField.evaluate_field = ["A", "A", "B"] := by
    simp [List.filterMap_cons, hA, hB]
  have hW2 : (GamePlan.mk [⟨0, 0, [⟨"A", ⟨.Archer, 1⟩⟩]⟩,
      ⟨0, 0, [⟨"B", ⟨.Archer, 1⟩⟩]⟩] 2 1).fields.filterMap
        GameField.evaluate_field = ["A", "B"] := by
    simp [List.filterMap_cons, hA, hB]
  refine ⟨?_, ?_, ?_, ?_⟩
  · exact (evaluate_match_report _).1 (by intro f hf; simp at hf; subst hf; rfl)
  · exact (evaluate_match_report _).2.1 "A" 2 (by decide)
      (by rw [hW3]; decide)
      (by rw [hW3]; decide)
  · exact ((evaluate_match_report _).2.2 "A" "B" 1 (by decide) (by decide)
      (by rw [hW2]; decide) (by rw [hW2]; decide)
      (by rw [hW2]; decide)).1
  · rw [hW2]
    decide

/-- C5 counterexample: two battlefields with different pairs of tied
owners ({A, B} and {C, D}) produce the identical match report, so the
draw report cannot be listing the tied owners. -/
theorem evaluate_draw_without_names_cex :
    (GamePlan.mk [⟨0, 0, [⟨"A", ⟨.Archer, 1⟩⟩]⟩,
      ⟨0, 0, [⟨"B", ⟨.Archer, 1⟩⟩]⟩] 2 1).evaluate =
      (GamePlan.mk [⟨0, 0, [⟨"C", ⟨.Archer, 1⟩⟩]⟩,
        ⟨0, 0, [⟨"D", ⟨.Archer, 1⟩⟩]⟩] 2 1).evaluate
    ∧ ((GamePlan.mk [⟨0, 0, [⟨"A", ⟨.Archer, 1⟩⟩]⟩,
        ⟨0, 0, [⟨"B", ⟨.Archer, 1⟩⟩]⟩] 2 1).fields.filterMap
          GameField.evaluate_field).dedup ≠
      ((GamePlan.mk [⟨0, 0, [⟨"C", ⟨.Archer, 1⟩⟩]⟩,
        ⟨0, 0, [⟨"D", ⟨.Archer, 1⟩⟩]⟩] 2 1).fields.filterMap
          GameField.evaluate_field).dedup := by
  have hA : GameField.evaluate_field ⟨0, 0, [⟨"A", ⟨.Archer, 1⟩⟩]⟩ =
      some "A" := evaluate_field_single 0 0 "A" .Archer 1 (by decide)
  have hB : GameField.evaluate_field ⟨0, 0, [⟨"B", ⟨.Archer, 1⟩⟩]⟩ =
      some "B" := evaluate_field_single 0 0 "B" .Archer 1 (by decide)
  have hC : GameField.evaluate_field ⟨0, 0, [⟨"C", ⟨.Archer, 1⟩⟩]⟩ =
      some "C" := evaluate_field_single 0 0 "C" .Archer 1 (by decide)
  have hD : GameField.evaluate_field ⟨0, 0, [⟨"D", ⟨.Archer, 1⟩⟩]⟩ =
      some "D" := evaluate_field_single 0 0 "D" .Archer 1 (by decide)
  have hWab : (GamePlan.mk [⟨0, 0, [⟨"A", ⟨.Archer, 1⟩⟩]⟩,
      ⟨0, 0, [⟨"B", ⟨.Archer, 1⟩⟩]⟩] 2 1).fields.filterMap
        GameField.evaluate_field = ["A", "B"] := by
    simp [List.filterMap_cons, hA, hB]
  have hWcd : (GamePlan.mk [⟨0, 0, [⟨"C", ⟨.Archer, 1⟩⟩]⟩,
      ⟨0, 0, [⟨"D", ⟨.Archer, 1⟩⟩]⟩] 2 1).fields.filterMap
        GameField.evaluate_field = ["C", "D"] := by
    simp [List.filterMap_cons, hC, hD]
  constructor
  · have h1 : (GamePlan.mk [⟨0, 0, [⟨"A", ⟨.Archer, 1⟩⟩]⟩,
        ⟨0, 0, [⟨"B", ⟨.Archer, 1⟩⟩]⟩] 2 1).evaluate = .draw 2 1 := by
      simp only [GamePlan.evaluate, hWab]
      rfl
    have h2 : (GamePlan.mk [⟨0, 0, [⟨"C", ⟨.Archer, 1⟩⟩]⟩,
        ⟨0, 0, [⟨"D", ⟨.Archer, 1⟩⟩]⟩] 2 1).evaluate = .draw 2 1 := by
      simp only [GamePlan.evaluate, hWcd]
      rfl
    rw [h1, h2]
  · rw [hWab, hWcd]
    decide

end Wartycoon

